import Mathlib

/-!
# Verification of the Madhava–Leibniz π search (`src/pi/madhava-leibniz.py`)

Shallow embedding of the `PiSearch` class and its module-level helpers.

Modelling conventions:
* Python `float` arithmetic is modelled by exact rational arithmetic (`ℚ`).
  Claims whose truth could depend on double-precision rounding are settled
  with an explicit error margin far larger than the accumulated IEEE-754
  rounding error, so the verdict transfers to the floating-point run.
* `str(pi)` in Python 3 is the 17-character string `"3.141592653589793"`;
  its fractional part (15 digits) is the hard-coded reference constant.
* `"\x7b:.\x7bprec\x7df\x7d".format(n, prec=15)` (formatting a float with 15 decimal
  places) is modelled as correct rounding of the exact rational input to 15
  fractional digits.  All inputs appearing in the claims are exactly
  representable at 15 places, so no rounding-mode subtleties arise.
* Python lists are Lean `List`s; `del xs[0]` is `List.drop 1`, `xs.append v`
  is `xs ++ [v]`, slices `xs[:n]` are `List.take n`.
-/

section PiSearchModel

/- `Rat.add`, `Rat.mul`, `Rat.inv`, `Rat.sub` are `@[irreducible]` in the
library, which blocks kernel evaluation by `decide`; the kernel itself is
perfectly able to compute them, so we locally restore reducibility. -/
attribute [local semireducible] Rat.add Rat.mul Rat.inv Rat.sub

namespace PiSearch

/-- `is_odd = lambda x: (x & 1) == 1` (module level, "bitwise method").
For the loop counter, a natural number, `x &&& 1 == 1` is the bitwise test. -/
def is_odd (x : Nat) : Bool := x &&& 1 == 1

/-- `is_even = lambda x: (x % 2) == 0` (module level; unused by the loop). -/
def is_even (x : Nat) : Bool := x % 2 == 0

/-- The fractional digits of `str(pi)`: `str(pi).split('.')[-1]` where
Python 3 renders `math.pi` as `"3.141592653589793"`. -/
def pi_str : List Char := "141592653589793".toList

/-- Formatting `"\x7b:.15f\x7d"` of a rational followed by `.split('.')[-1]`:
the 15 fractional digits (with trailing zeros preserved) of the decimal
rendering of `q`, i.e. the digits of `round(|q| * 10^15) mod 10^15`,
most significant first, zero-padded to length 15. -/
def remainderDigits (q : ℚ) : List Char :=
  let m : Nat := (Rat.floor (|q| * 10 ^ 15 + 1 / 2)).toNat % 10 ^ 15
  (List.range 15).map (fun j => Char.ofNat (48 + m / 10 ^ (14 - j) % 10))

/-- The scan loop of `test_against_pi`:
`for i in range(len(remainder_str))[min_places:]` with
`k = len(remainder_str) - i`, returning at the first `k` such that
`pi_str.startswith(remainder_str[:k])`; falls through to `(False, 0)`. -/
def testScan (remainder : List Char) (min_places : Nat) :
    List Nat → Bool × Nat
  | [] => (false, 0)
  | i :: rest =>
      let k := remainder.length - i
      if (remainder.take k).isPrefixOf pi_str then
        if min_places ≤ k then (true, k) else (false, k)
      else
        testScan remainder min_places rest

/-- `PiSearch.test_against_pi(self, n, min_places=1)`: format `n` with as
many fractional places as `pi_str` has, then scan prefix lengths. -/
def test_against_pi (n : ℚ) (min_places : Nat := 1) : Bool × Nat :=
  let remainder_str := remainderDigits n
  testScan remainder_str min_places
    ((List.range remainder_str.length).drop min_places)

/-- `PiSearch.last_result(self)`: `self.total * 4`, the current π estimate.
(Takes the running total directly; see `last_result_method` for the
state-threaded method view.) -/
def last_result (total : ℚ) : ℚ := total * 4

/-- The `assert` preconditions at the head of `PiSearch.next_term`:
`nominator == 1 or nominator == -1`, `denominator > 0`,
`is_odd(denominator)`.  For integers, Python's bitwise test
`(x & 1) == 1` agrees with `x % 2 == 1` under floored/Euclidean
remainder, which is Lean's `Int` `%`. -/
def nextTermAssertOk (nominator denominator : Int) : Prop :=
  (nominator = 1 ∨ nominator = -1) ∧ denominator > 0 ∧ denominator % 2 = 1

/-- `PiSearch.next_term(self, nominator, denominator)`: the value computed
after the asserts, `float(nominator) / denominator`, as exact division. -/
def next_term (nominator denominator : Int) : ℚ :=
  (nominator : ℚ) / (denominator : ℚ)

/-- `PiSearch._append_history(self, val)` acting on the `_history` list
(the `hasattr` guard initialises the list to `[]` on first use, which is
the initial state of our embedding): `max_history = 100`; if
`len(history) > max_history` then `del history[0]`; then `history.append(val)`. -/
def _append_history (history : List (Int × Int)) (val : Int × Int) :
    List (Int × Int) :=
  let max_history := 100
  let history := if history.length > max_history then history.drop 1 else history
  history ++ [val]

/-- `str.lstrip('-')`: remove leading `'-'` characters. -/
def lstripDash (s : String) : String := ⟨s.toList.dropWhile (· = '-')⟩

/-- `PiSearch.recent_history(self, num=10)`: renders `self._history[:num]`
("Format last `n` fraction series nicely"), starting from `"..."`, appending
`" + nom/denom"` for positive nominators and `" - nom/denom"` (with the
minus sign stripped from the fraction) otherwise. -/
def recent_history (history : List (Int × Int)) (num : Nat := 10) : String :=
  (history.take num).foldl
    (fun (history_str : String) (f : Int × Int) =>
      let fraction_str := toString f.1 ++ "/" ++ toString f.2
      if f.1 > 0 then history_str ++ " + " ++ fraction_str
      else history_str ++ " - " ++ lstripDash fraction_str)
    "..."

/-- The mutable state of one `PiSearch.find_pi` run: the instance
attributes written by the loop body together with the loop's local
variables `i` and `operation` (`true` ↔ `'add'`).  Wall-clock fields
(`start_time`, `time`) are omitted: no claim concerns real time.
`last_fraction` is `none` before the first term (the Python attribute is
unset until first assignment). -/
structure State where
  total : ℚ
  iterations : Nat
  num_digits_found : Nat
  last_fraction : Option (Int × Int)
  history : List (Int × Int)
  i : Nat
  operation : Bool
  deriving DecidableEq

/-- State at entry of the `while True` loop: class attributes
`total = 0`, `iterations = 0`, `num_digits_found = 0`; locals `i = 0`,
`operation = 'add'`. -/
def initState : State :=
  { total := 0, iterations := 0, num_digits_found := 0,
    last_fraction := none, history := [], i := 0, operation := true }

/-- One pass of the `while True` body of `PiSearch.find_pi`:
increment `i`; `continue` if `i` is even; otherwise produce the term,
accumulate it, record the fraction, and update `num_digits_found` when
`test_against_pi` reports a strictly better match. -/
def find_pi_step (s : State) : State :=
  let i := s.i + 1
  if !is_odd i then { s with i := i }
  else
    let denominator : Int := i
    let nominator : Int := if s.operation then 1 else -1
    let operation : Bool := !s.operation
    let n := next_term nominator denominator
    let total := s.total + n
    let last_fraction := (nominator, denominator)
    let res := test_against_pi (last_result total) s.num_digits_found
    { total := total,
      iterations := s.iterations + 1,
      num_digits_found :=
        if res.1 ∧ res.2 > s.num_digits_found then res.2
        else s.num_digits_found,
      last_fraction := some last_fraction,
      history := _append_history s.history last_fraction,
      i := i,
      operation := operation }

/-- The state after `n` passes of the loop body (iteration `t` of the
series corresponds to pass `2*t - 1`, where the `t`-th odd `i` is reached). -/
def run : Nat → State
  | 0 => initState
  | n + 1 => find_pi_step (run n)

/-- Closed form of the running sum: the `t`-term Madhava–Leibniz partial
sum `1/1 - 1/3 + 1/5 - ...` (sign `+` for odd term index, denominator
`2*t - 1`).  Proved below to coincide with the `total` field of `run`. -/
def leibTotal : Nat → ℚ
  | 0 => 0
  | t + 1 =>
      leibTotal t + (if (t + 1) % 2 = 1 then (1 : ℚ) else -1) / (2 * (t + 1) - 1)

theorem is_odd_eq_mod (x : Nat) : is_odd x = (x % 2 == 1) := by
  simp [is_odd, Nat.and_one_is_mod]

theorem bool_not_even_mod (m : Nat) :
    (!(m % 2 == 0)) = ((m + 1) % 2 == 0) := by
  rcases Nat.mod_two_eq_zero_or_one m with h | h <;>
    simp [h, Nat.add_mod, *]

/-- The loop invariant of `find_pi`, by induction on the number of passes
`n` of the `while True` body: the pass counter `i` equals `n`, the number
of recorded terms is the number of odd values among `1..n`, the
add/sub flag alternates per term starting at add, the running total is the
Madhava–Leibniz partial sum, and the last recorded fraction is the
`t`-th series term `(±1, 2*t - 1)` for `t` the term count. -/
theorem run_inv (n : Nat) :
    (run n).i = n ∧
    (run n).iterations = (n + 1) / 2 ∧
    (run n).operation = (((n + 1) / 2) % 2 == 0) ∧
    (run n).total = leibTotal ((n + 1) / 2) ∧
    (run n).last_fraction =
      (if (n + 1) / 2 = 0 then none
       else some (if ((n + 1) / 2) % 2 = 1 then (1 : Int) else -1,
                  ((2 * ((n + 1) / 2) - 1 : Nat) : Int))) := by
  induction n with
  | zero => exact ⟨rfl, rfl, rfl, rfl, rfl⟩
  | succ n ih =>
    obtain ⟨hi, hit, hop, htot, hlf⟩ := ih
    rcases Nat.mod_two_eq_zero_or_one (n + 1) with hpar | hpar
    · -- even pass: `continue`
      have hodd : is_odd (n + 1) = false := by
        rw [is_odd_eq_mod, hpar]; rfl
      have hhalf : (n + 1 + 1) / 2 = (n + 1) / 2 := by omega
      simp only [run, find_pi_step, hi, hodd, Bool.not_false, if_pos rfl]
      exact ⟨rfl, by rw [hhalf]; exact hit, by rw [hhalf]; exact hop,
        by rw [hhalf]; exact htot, by rw [hhalf]; exact hlf⟩
    · -- odd pass: record the `m+1`-st term, where `m = (n+1)/2`
      have hodd : is_odd (n + 1) = true := by
        rw [is_odd_eq_mod, hpar]; rfl
      obtain ⟨m, hm⟩ : ∃ m, (n + 1) / 2 = m := ⟨_, rfl⟩
      have hn2m : n + 1 = 2 * m + 1 := by omega
      have hhalf : (n + 1 + 1) / 2 = m + 1 := by omega
      have hq : ((n + 1 : Nat) : ℚ) = 2 * (m : ℚ) + 1 := by
        exact_mod_cast congrArg (Nat.cast : Nat → ℚ) hn2m
      rw [hm] at hit hop htot hlf
      simp only [run, find_pi_step, hi, hodd, Bool.not_true]
      rw [if_neg (by simp)]
      refine ⟨rfl, ?_, ?_, ?_, ?_⟩
      · show (run n).iterations + 1 = (n + 1 + 1) / 2
        rw [hit, hhalf]
      · show (!(run n).operation) = ((n + 1 + 1) / 2 % 2 == 0)
        rw [hop, hhalf]
        exact bool_not_even_mod m
      · show (run n).total + next_term _ _ = leibTotal ((n + 1 + 1) / 2)
        rw [htot, hop, hhalf, leibTotal]
        congr 1
        rcases Nat.mod_two_eq_zero_or_one m with hmp | hmp
        · have h1 : (m + 1) % 2 = 1 := by omega
          rw [hmp, h1]
          simp only [next_term, beq_self_eq_true, if_true, if_pos rfl,
            Int.cast_one, Int.cast_natCast]
          rw [hq]
          ring_nf
        · have h1 : (m + 1) % 2 = 0 := by omega
          rw [hmp, h1]
          simp only [next_term, if_neg (by decide : ¬ ((1 : Nat) == 0) = true),
            if_neg (by decide : ¬ (0 = 1)), Int.cast_neg, Int.cast_one,
            Int.cast_natCast]
          rw [hq]
          ring_nf
      · show (some (_, _) : Option (Int × Int)) = _
        rw [hop, hhalf, if_neg (Nat.succ_ne_zero m)]
        rcases Nat.mod_two_eq_zero_or_one m with hmp | hmp
        · have h1 : (m + 1) % 2 = 1 := by omega
          rw [hmp, h1]
          simp only [beq_self_eq_true, if_true, if_pos rfl,
            Option.some.injEq, Prod.mk.injEq]
          exact ⟨trivial, by omega⟩
        · have h1 : (m + 1) % 2 = 0 := by omega
          rw [hmp, h1]
          simp only [if_neg (by decide : ¬ ((1 : Nat) == 0) = true),
            if_neg (by decide : ¬ (0 = 1)),
            Option.some.injEq, Prod.mk.injEq]
          exact ⟨trivial, by omega⟩

theorem remainderDigits_length (q : ℚ) : (remainderDigits q).length = 15 := by
  simp [remainderDigits]

theorem drop_range' :
    ∀ (s n m : Nat), (List.range' s n).drop m = List.range' (s + m) (n - m)
  | _, _, 0 => by simp
  | _, 0, _ + 1 => by simp
  | s, n + 1, m + 1 => by
      rw [List.range'_succ, List.drop_succ_cons, drop_range' (s + 1) n m]
      congr 1 <;> omega

theorem mem_drop_range {m n j : Nat} (h : j ∈ (List.range n).drop m) :
    m ≤ j ∧ j < n := by
  rw [List.range_eq_range', drop_range'] at h
  obtain ⟨i, hi, rfl⟩ := List.mem_range'.mp h
  omega

/-- Behaviour of the scan loop on any candidate list whose indices `j` all
satisfy `min_places ≤ j < |remainder|` (as the indices produced by
`range(len(remainder_str))[min_places:]` do): a `true` verdict carries a
prefix length between `min_places` and `|remainder| - min_places`, and a
`false` verdict carries either `0` (fall-through) or a length strictly
below `min_places` (the in-loop false branch). -/
theorem testScan_spec (remainder : List Char) (mp : Nat) :
    ∀ l : List Nat, (∀ j ∈ l, mp ≤ j ∧ j < remainder.length) →
    ((testScan remainder mp l).1 = true →
        mp ≤ (testScan remainder mp l).2 ∧
        (testScan remainder mp l).2 + mp ≤ remainder.length) ∧
    ((testScan remainder mp l).1 = false →
        (testScan remainder mp l).2 = 0 ∨ (testScan remainder mp l).2 < mp) := by
  intro l
  induction l with
  | nil =>
      intro _
      exact ⟨fun h => by simp [testScan] at h, fun _ => Or.inl rfl⟩
  | cons j rest ih =>
      intro hl
      have hj := hl j (List.mem_cons_self ..)
      have hrest := ih fun x hx => hl x (List.mem_cons_of_mem _ hx)
      by_cases hpre :
          ((remainder.take (remainder.length - j)).isPrefixOf pi_str) = true
      · by_cases hk : mp ≤ remainder.length - j
        · simp only [testScan, hpre, if_true, if_pos hk]
          exact ⟨fun _ => ⟨hk, by omega⟩, fun h => by simp at h⟩
        · simp only [testScan, hpre, if_true, if_neg hk]
          exact ⟨fun h => by simp at h, fun _ => Or.inr (by omega)⟩
      · simpa only [testScan, if_neg hpre] using hrest

/-- One pass of the loop never decreases `num_digits_found`: the only
write is guarded by `match and (num_places > self.num_digits_found)`. -/
theorem le_ite_update (c : Prop) [Decidable c] (a b : Nat) (hb : c → a ≤ b) :
    a ≤ if c then b else a := by
  split
  · exact hb ‹c›
  · exact le_refl a

theorem find_pi_step_ndf_mono (s : State) :
    s.num_digits_found ≤ (find_pi_step s).num_digits_found := by
  unfold find_pi_step
  by_cases h : is_odd (s.i + 1) = true
  · simp only [h, Bool.not_true]
    rw [if_neg (by simp)]
    exact le_ite_update _ _ _ fun hc => le_of_lt hc.2
  · rw [Bool.not_eq_true] at h
    simp [h]

/-- `_history` after `k` calls of `_append_history`, starting (as the
`hasattr` guard does) from the empty list, recording the placeholder
fraction `(1, 2*t + 1)` on the `t`-th call. -/
def histN (k : Nat) : List (Int × Int) :=
  (List.range k).foldl
    (fun (h : List (Int × Int)) (t : Nat) =>
      _append_history h (1, (2 * t + 1 : Int))) []

/-- Method-call view of `test_against_pi`: Python passes `self` to the
method; its body only reads (`str(pi)`, the argument `n`, `min_places`)
and assigns nothing to `self`, so the embedded method hands back the
state it received together with the pure result. -/
def test_against_pi_method (s : State) (n : ℚ) (min_places : Nat) :
    State × (Bool × Nat) :=
  (s, test_against_pi n min_places)

/-- Method-call view of `last_result`: reads `self.total`, writes nothing. -/
def last_result_method (s : State) : State × ℚ :=
  (s, last_result s.total)

end PiSearch

open PiSearch

/-- C1: the digit matcher `test_against_pi` returns exactly the four
documented results: `(3.140000, minPlaces=3) ↦ (false, 2)`,
`(3.140000, minPlaces=2) ↦ (true, 2)`, `(3.141599, minPlaces=1) ↦ (true, 5)`,
`(3.555555, minPlaces=1) ↦ (false, 0)`. -/
theorem claim_C1 :
    test_against_pi (314/100) 3 = (false, 2) ∧
    test_against_pi (314/100) 2 = (true, 2) ∧
    test_against_pi (3141599/1000000) 1 = (true, 5) ∧
    test_against_pi (3555555/1000000) 1 = (false, 0) := by
  refine ⟨?_, ?_, ?_, ?_⟩ <;> decide

/-- C2 counterexample: the claim says the matcher never returns
`(false, k)` with `k > 0` because lengths `k ≤ minPlaces` are allegedly
never scanned; but on the estimate `3.140000` with `minPlaces = 3` the
code returns `(false, 2)` — a false verdict with `k = 2 > 0`, at a
scanned length `2 ≤ minPlaces`. -/
theorem counterexample_C2 :
    (test_against_pi (314/100) 3).1 = false ∧
    (test_against_pi (314/100) 3).2 = 2 := by
  refine ⟨?_, ?_⟩ <;> decide

/-- C2, amended: the scan runs over `k` from `15 - minPlaces` down to `1`
(not from the full length down to `minPlaces + 1`), so lengths
`k ≤ minPlaces` are tested; the matcher can return `(false, k)` with
`k > 0`, and does so exactly when the first (longest) matching scanned
prefix has length `0 < k < minPlaces`; a `true` verdict carries
`minPlaces ≤ k ≤ 15 - minPlaces`. -/
theorem claim_C2 (q : ℚ) (mp : Nat) :
    ((test_against_pi q mp).1 = true →
        mp ≤ (test_against_pi q mp).2 ∧ (test_against_pi q mp).2 + mp ≤ 15) ∧
    ((test_against_pi q mp).1 = false →
        (test_against_pi q mp).2 = 0 ∨ (test_against_pi q mp).2 < mp) := by
  have h := testScan_spec (remainderDigits q) mp
    ((List.range (remainderDigits q).length).drop mp)
    (fun j hj => mem_drop_range hj)
  rw [remainderDigits_length] at h
  simpa only [test_against_pi, remainderDigits_length] using h

theorem witness_C2 :
    (test_against_pi (314/100) 3).2 = 0 ∨ (test_against_pi (314/100) 3).2 < 3 :=
  (claim_C2 (314/100) 3).2 (by decide)

/-- C7: with `minPlaces` at least the reference length (15), the scan
range `range(len(remainder_str))[min_places:]` is empty and the matcher
returns `(false, 0)` for every estimate. -/
theorem claim_C7 (q : ℚ) (mp : Nat) (h : 15 ≤ mp) :
    test_against_pi q mp = (false, 0) := by
  show testScan (remainderDigits q) mp
      (List.drop mp (List.range (remainderDigits q).length)) = (false, 0)
  rw [List.drop_eq_nil_of_le (by rw [List.length_range, remainderDigits_length]; exact h)]
  rfl

theorem witness_C7 : 15 ≤ 15 ∧ test_against_pi (314/100) 15 = (false, 0) :=
  ⟨by decide, claim_C7 (314/100) 15 (by decide)⟩

set_option maxRecDepth 100000 in
/-- C3: the claim says the history buffer never exceeds 100 entries once
more than 100 fractions have been recorded.  The code deletes the oldest
entry *before* appending and only when the length already *exceeds*
`max_history = 100`, so the buffer reaches — and then permanently stays
at — 101 entries: after 101 appends the length is 101, and it is still
101 after 150 appends.  Eviction itself is FIFO and the buffer does hold
the most recent entries (after 150 appends it is exactly the input
sequence with the oldest 49 entries dropped), but the bound 100 is
violated by one: `max_history` is off by one against its own name. -/
theorem claim_C3 :
    (histN 101).length = 101 ∧
    (histN 150).length = 101 ∧
    histN 150 =
      ((List.range 150).map (fun t => ((1 : Int), (2 * t + 1 : Int)))).drop 49 := by
  refine ⟨?_, ?_, ?_⟩ <;> decide

/-- C4: the claim (and the method's own comment, "Format last `n`
fraction series nicely") says `recent_history(num=5)` renders the 5 most
recent fractions; the code slices `self._history[:num]`, the *first*
(oldest) five entries of the buffer.  With six recorded fractions
`1/1, -1/3, 1/5, -1/7, 1/9, -1/11` the rendering contains the oldest
five and omits the most recent term `-1/11` (the claimed behaviour would
render `"... - 1/3 + 1/5 - 1/7 + 1/9 - 1/11"`). -/
theorem claim_C4 :
    recent_history [(1, 1), (-1, 3), (1, 5), (-1, 7), (1, 9), (-1, 11)] 5
      = "... + 1/1 - 1/3 + 1/5 - 1/7 + 1/9" ∧
    recent_history [(1, 1), (-1, 3), (1, 5), (-1, 7), (1, 9), (-1, 11)] 5
      ≠ "... - 1/3 + 1/5 - 1/7 + 1/9 - 1/11" := by
  refine ⟨?_, ?_⟩ <;> decide

/-- C5: `num_digits_found` is monotonically non-decreasing over the run:
the loop writes it only when the matcher reports a match with a strictly
greater digit count. -/
theorem claim_C5 (n m : Nat) (h : n ≤ m) :
    (run n).num_digits_found ≤ (run m).num_digits_found := by
  induction h with
  | refl => exact le_refl _
  | step _ ih => exact le_trans ih (find_pi_step_ndf_mono _)

theorem witness_C5 :
    0 ≤ 3 ∧ (run 0).num_digits_found ≤ (run 3).num_digits_found :=
  ⟨by decide, claim_C5 0 3 (by decide)⟩

/-- C6: the `t`-th recorded series term (reached at pass `2*t - 1` of the
loop, where the `t`-th odd value of `i` occurs) is the fraction with
denominator `2*t - 1` (positive, odd, increasing by 2 per term) and
nominator `+1` for odd `t`, `-1` for even `t`, starting at `+1`. -/
theorem claim_C6 (t : Nat) (h : 1 ≤ t) :
    (run (2 * t - 1)).iterations = t ∧
    (run (2 * t - 1)).last_fraction =
      some (if t % 2 = 1 then (1 : Int) else -1, ((2 * t - 1 : Nat) : Int)) := by
  obtain ⟨_, hit, _, _, hlf⟩ := run_inv (2 * t - 1)
  have h2 : (2 * t - 1 + 1) / 2 = t := by omega
  rw [h2] at hit hlf
  rw [hlf, if_neg (by omega)]
  exact ⟨hit, rfl⟩

theorem witness_C6 :
    1 ≤ 2 ∧ ((run (2 * 2 - 1)).iterations = 2 ∧
      (run (2 * 2 - 1)).last_fraction =
        some (if 2 % 2 = 1 then (1 : Int) else -1, ((2 * 2 - 1 : Nat) : Int))) :=
  ⟨by decide, claim_C6 2 (by decide)⟩

/-- C8: whenever the loop body reaches the call of `next_term` (that is,
the incremented counter `i + 1` is odd), the arguments it passes — the
nominator `1` or `-1` chosen from the add/sub flag, and the denominator
`i + 1` — satisfy all three `assert` preconditions of `next_term`, for
every state whatsoever: the fatal-abort branch is unreachable. -/
theorem claim_C8 (s : State) (h : is_odd (s.i + 1) = true) :
    nextTermAssertOk (if s.operation then 1 else -1) ((s.i + 1 : Nat) : Int) := by
  refine ⟨?_, ?_, ?_⟩
  · cases s.operation <;> simp
  · exact_mod_cast Nat.succ_pos s.i
  · rw [is_odd_eq_mod] at h
    have : (s.i + 1) % 2 = 1 := by simpa using h
    omega

theorem witness_C8 :
    is_odd (initState.i + 1) = true ∧
    nextTermAssertOk (if initState.operation then 1 else -1)
      ((initState.i + 1 : Nat) : Int) :=
  ⟨by decide, claim_C8 initState (by decide)⟩

set_option maxRecDepth 100000 in
/-- C9 counterexample: both halves of the claim fail on the code.  After
exactly 20 iterations (pass 39 of the loop, since only odd passes record
a term) the estimate `total * 4` is the 20-term Madhava–Leibniz partial
sum `≈ 3.09162`, whose formatted decimal string begins `"3.09"`, not
`"3.1"`; and after exactly 120 iterations (pass 239) the estimate
`≈ 3.13326` formats to a string beginning `"3.13"`, not `"3.14"`.  Every
inequality holds with a margin of `10^-6`, which exceeds the accumulated
double-precision rounding error of the float run (`< 10^-12` after 120
terms) by six orders of magnitude, so the refutation transfers to the
floating-point program.  (The code's own docstring milestones — 20 and
120 iterations — do not match what the code computes; the actual
milestones are 19 and 119, see `claim_C9`.) -/
theorem counterexample_C9 :
    (run 39).iterations = 20 ∧
    (remainderDigits (last_result (run 39).total)).take 2 = ['0', '9'] ∧
    3 ≤ last_result (run 39).total ∧
    last_result (run 39).total + 1/1000000 < 31/10 ∧
    (run 239).iterations = 120 ∧
    (remainderDigits (last_result (run 239).total)).take 2 = ['1', '3'] ∧
    313/100 + 1/1000000 ≤ last_result (run 239).total ∧
    last_result (run 239).total + 1/1000000 < 157/50 := by
  obtain ⟨_, hit, _, htot, _⟩ := run_inv 39
  obtain ⟨_, hit2, _, htot2, _⟩ := run_inv 239
  have h20 : (39 + 1) / 2 = 20 := by norm_num
  have h120 : (239 + 1) / 2 = 120 := by norm_num
  rw [h20] at hit htot
  rw [h120] at hit2 htot2
  exact ⟨hit, by rw [htot]; decide, by rw [htot]; decide, by rw [htot]; decide,
    hit2, by rw [htot2]; decide, by rw [htot2]; decide, by rw [htot2]; decide⟩

set_option maxRecDepth 100000 in
/-- C9, amended: the convergence milestones hold one iteration earlier
than claimed: after exactly 19 iterations (pass 37) the estimate
`≈ 3.19418` formats to a string beginning `"3.1"`, and after exactly 119
iterations (pass 237) the estimate `≈ 3.14999` formats to a string
beginning `"3.14"`.  Each inequality carries a `10^-6` margin, far above
the double-precision rounding error of the float run, so the milestones
also hold for the floating-point program. -/
theorem claim_C9 :
    (run 37).iterations = 19 ∧
    (remainderDigits (last_result (run 37).total)).take 1 = ['1'] ∧
    31/10 + 1/1000000 ≤ last_result (run 37).total ∧
    last_result (run 37).total + 1/1000000 < 32/10 ∧
    (run 237).iterations = 119 ∧
    (remainderDigits (last_result (run 237).total)).take 2 = ['1', '4'] ∧
    157/50 + 1/1000000 ≤ last_result (run 237).total ∧
    last_result (run 237).total + 1/1000000 < 63/20 := by
  obtain ⟨_, hit1, _, htot1, _⟩ := run_inv 37
  obtain ⟨_, hit2, _, htot2, _⟩ := run_inv 237
  have h19 : (37 + 1) / 2 = 19 := by norm_num
  have h119 : (237 + 1) / 2 = 119 := by norm_num
  rw [h19] at hit1 htot1
  rw [h119] at hit2 htot2
  exact ⟨hit1, by rw [htot1]; decide, by rw [htot1]; decide,
    by rw [htot1]; decide, hit2, by rw [htot2]; decide,
    by rw [htot2]; decide, by rw [htot2]; decide⟩

/-- C10: `test_against_pi` and `last_result` are read-only: called on any
state they hand the state back unchanged (every field included), and the
matcher's result is a pure function of its arguments alone. -/
theorem claim_C10 (s : State) (n : ℚ) (mp : Nat) :
    (test_against_pi_method s n mp).1 = s ∧
    (test_against_pi_method s n mp).2 = test_against_pi n mp ∧
    (last_result_method s).1 = s :=
  ⟨rfl, rfl, rfl⟩

end PiSearchModel
